import Mathlib

/-!
Verification development for the ferrischess engine core
(`src/search.rs`, `src/eval.rs`, `src/move_sorter.rs`, `src/engine.rs`).

The chess board itself (crate `chessframe`) is an external collaborator:
positions are modelled as finite game trees that answer exactly the
queries the engine makes (`hash`, `in_check`, the static evaluation at
the position, the generated move list with the board's answers to
`get_piece(mv.to)` / `get_piece(mv.from)`, and the child position that
`make_move_new` produces for each legal move).  Wall-clock time is
modelled by counting calls to `should_cancel_search`: one call is one
tick, and the time budget is measured in ticks.  General recursion of
the Rust search is rendered total with an explicit `fuel` argument that
every nested call decrements; all concrete runs use ample fuel and all
universal theorems hold for every fuel.
-/

namespace Ferris

/-- Chess pieces, in the index order of `chessframe::Piece::to_index`. -/
inductive Piece : Type where
  | pawn | knight | bishop | rook | queen | king
deriving DecidableEq, Repr

/-- `Piece::to_index`. -/
def Piece.toIndex : Piece → Nat
  | .pawn => 0
  | .knight => 1
  | .bishop => 2
  | .rook => 3
  | .queen => 4
  | .king => 5

/-- Side to move. -/
inductive Color : Type where
  | white | black
deriving DecidableEq, Repr

/-- `Bound` from `src/search.rs` (lines 17-24). -/
inductive Bound : Type where
  | None | Exact | Upper | Lower
deriving DecidableEq, Repr

/-- `TimeManagement` from `src/search.rs` (lines 26-32). -/
inductive TimeManagement : Type where
  | None | MoveTime | TimeLeft
deriving DecidableEq, Repr

/-- `INFINITY` from `src/search.rs` line 15. -/
def INFINITY : Int := 1000000000

/-- `Eval::MATE_SCORE` from `src/eval.rs` line 19. -/
def MATE_SCORE : Int := 100000000

/-- `Search::NULL_MOVE` (all-zero move).  Moves are abstracted to their
identity (from/to/promotion) as a `Nat`. -/
def NULL_MOVE : Nat := 0

/-- `i32::MIN`, the initial value of `max` in the search loops. -/
def i32Min : Int := -2147483648

/-- `i32::MAX`. -/
def i32Max : Int := 2147483647

/-- `i32::saturating_sub`. -/
def satSub (a b : Int) : Int := max (min (a - b) i32Max) i32Min

/-- `i32::saturating_add`. -/
def satAdd (a b : Int) : Int := max (min (a + b) i32Max) i32Min

/-- A position of the external board, unrolled as a finite game tree.
`Pos.mk hash inCheck eval moves captures`:
* `hash`   – `board.hash()` (zobrist, abstracted to `Nat`);
* `inCheck` – `board.in_check()`;
* `eval`   – `Eval::new(board).eval()`, the static evaluation the search
  reads at quiescence leaves (the evaluator itself is embedded
  separately, see `evalFn`);
* `moves`  – `board.generate_moves_vec(!EMPTY)`: for each pseudo-legal
  move its identity, the board's `get_piece(mv.to)` (captured piece, if
  any), `get_piece(mv.from)` (the moving piece), and `some child` when
  `make_move_new` succeeds (`none` = illegal, leaves king in check);
* `captures` – `board.generate_moves_vec(occupancy(!side_to_move))`,
  the capture-only generation used by quiescence, same shape. -/
inductive Pos : Type where
  | mk (hash : Nat) (inCheck : Bool) (eval : Int)
       (moves : List (Nat × Option Piece × Piece × Option Pos))
       (captures : List (Nat × Option Piece × Piece × Option Pos)) : Pos

/-- One generated move together with the board's answers about it. -/
abbrev MoveEntry := Nat × Option Piece × Piece × Option Pos

/-- `board.hash()`. -/
def Pos.hash : Pos → Nat
  | .mk h _ _ _ _ => h

/-- `board.in_check()`. -/
def Pos.inCheck : Pos → Bool
  | .mk _ c _ _ _ => c

/-- `Eval::new(board).eval()` at this position. -/
def Pos.eval : Pos → Int
  | .mk _ _ e _ _ => e

/-- `board.generate_moves_vec(!EMPTY)`. -/
def Pos.moves : Pos → List MoveEntry
  | .mk _ _ _ ms _ => ms

/-- `board.generate_moves_vec(board.occupancy(!board.side_to_move))`. -/
def Pos.captures : Pos → List MoveEntry
  | .mk _ _ _ _ cs => cs

/-- An entry of the transposition table: key (zobrist hash), the stored
value `(score, bound, move)` and the stored depth.  The external
`TranspositionTable` (fixed size, always-replace) is modelled as an
association list probed newest-first, which reproduces the
overwrite-then-read behaviour the search observes for the keys it
touches. -/
structure TTEntry : Type where
  key : Nat
  score : Int
  bound : Bound
  mv : Nat
  depth : Nat
deriving DecidableEq, Repr

/-- `TranspositionTable::get(hash)`. -/
def ttGet (tt : List TTEntry) (h : Nat) : Option TTEntry :=
  tt.find? (fun e => e.key == h)

/-- `TranspositionTable::store(hash, (score, bound, mv), depth)`. -/
def ttStore (tt : List TTEntry) (h : Nat) (score : Int) (bound : Bound)
    (mv : Nat) (depth : Nat) : List TTEntry :=
  ⟨h, score, bound, mv, depth⟩ :: tt

/-- The mutable state of `Search` (`src/search.rs` lines 44-67).  The
repetition table (a `HashSet<u64>`) is a list of hashes without
duplicates: the search only inserts a hash after a negative membership
test, so `List.erase` coincides with `HashSet::remove`.  `checks` is the
number of `should_cancel_search` calls since the timer was started
(the tick model of `think_timer.elapsed()`), and `time` is the budget in
the same ticks. -/
structure SState : Type where
  repTable : List Nat
  tt : List TTEntry
  evaluation : Int
  bestMove : Nat
  pv : List Nat
  evaluationIteration : Int
  bestMoveIteration : Nat
  pvIteration : List Nat
  nodes : Nat
  seldepth : Nat
  time : Nat
  checks : Nat
  timeManagement : TimeManagement
  searchDepth : Nat
  cancelled : Bool
deriving DecidableEq, Repr

/-- `Search::new` (`src/search.rs` lines 96-127): `search_depth` is
`depth.unwrap_or(MAX_PLY)` with `MAX_PLY = 255`. -/
def mkSearch (repTable : List Nat) (tt : List TTEntry)
    (tm : TimeManagement) (depth : Option Nat) : SState :=
  { repTable := repTable
    tt := tt
    evaluation := 1234567890
    bestMove := NULL_MOVE
    pv := []
    evaluationIteration := 1234567890
    bestMoveIteration := NULL_MOVE
    pvIteration := []
    nodes := 0
    seldepth := 0
    time := 0
    checks := 0
    timeManagement := tm
    searchDepth := depth.getD 255
    cancelled := false }

/-- `Search::should_cancel_search` (`src/search.rs` lines 221-228): sets
the sticky `cancelled` flag once the elapsed ticks reach the budget and
time management is active, and returns the flag. -/
def shouldCancelSearch (s : SState) : Bool × SState :=
  let s := { s with checks := s.checks + 1 }
  let s :=
    if s.time ≤ s.checks ∧ s.timeManagement ≠ TimeManagement.None then
      { s with cancelled := true }
    else s
  (s.cancelled, s)

/-- `Search::correct_mate_score` (`src/search.rs` lines 499-505). -/
def correctMateScore (score : Int) (ply : Nat) : Int :=
  if MATE_SCORE - 1000 < |score| then
    (score * score.sign - ply) * score.sign
  else score

/-- The transposition-table probe of the interior search
(`src/search.rs` lines 332-343): `some v` means the search returns `v`
immediately; `none` means it continues.  The `Lower` arm is commented
out in the source, so a `Lower` (or `None`) bound never cuts. -/
def ttCutoff (entry : Option TTEntry) (depth ply : Nat) (alpha : Int) :
    Option Int :=
  match entry with
  | some e =>
    if depth ≤ e.depth then
      let corrected := correctMateScore e.score ply
      match e.bound with
      | Bound.Exact => some corrected
      | Bound.Upper => if corrected ≤ alpha then some corrected else none
      | _ => none
    else none
  | none => none

/-- `Search::MVV_LVA` (`src/search.rs` lines 87-94), rows indexed by the
victim, columns by the attacker. -/
def MVV_LVA : List (List Int) :=
  [[15, 14, 13, 12, 11, 10],
   [25, 24, 23, 22, 21, 20],
   [35, 34, 33, 32, 31, 30],
   [45, 44, 43, 42, 41, 40],
   [55, 54, 53, 52, 51, 50],
   [0, 0, 0, 0, 0, 0]]

/-- `Search::get_mvv_lva` (`src/search.rs` lines 476-482); the unchecked
indexing is always in range because `Piece.toIndex < 6`. -/
def getMvvLva (victim attacker : Piece) : Int :=
  (MVV_LVA.getD victim.toIndex []).getD attacker.toIndex 0

/-- `Search::score_move` (`src/search.rs` lines 458-474).  `captured`
and `mover` are the board's `get_piece(mv.to)` and `get_piece(mv.from)`
for this move (carried in the move entry). -/
def scoreMove (captured : Option Piece) (mover : Piece) (mv : Nat)
    (ttMove pvMove : Option Nat) : Int :=
  if some mv = pvMove then 2000
  else if some mv = ttMove then 1000
  else
    match captured with
    | some victim => getMvvLva victim mover
    | none => 0

/-- The score `Search::sort_moves` computes for one move entry. -/
def entryScore (e : MoveEntry) (ttMove pvMove : Option Nat) : Int :=
  match e with
  | (mv, captured, mover, _) => scoreMove captured mover mv ttMove pvMove

/-- Descending order on scored entries (the comparator
`|a, b| b.0.cmp(&a.0)` of `sort_unstable_by`). -/
def scoreGe (a b : Int × MoveEntry) : Prop := b.1 ≤ a.1

instance : DecidableRel scoreGe := fun a b =>
  inferInstanceAs (Decidable (b.1 ≤ a.1))

instance : IsTotal (Int × MoveEntry) scoreGe :=
  ⟨fun a b => le_total b.1 a.1⟩

instance : IsTrans (Int × MoveEntry) scoreGe :=
  ⟨fun _ _ _ h h' => le_trans h' h⟩

/-- `Search::sort_moves` (`src/search.rs` lines 438-456): score every
generated move, sort the scored list by descending score and keep the
moves.  `pv_move` is `self.pv.get(ply - 1)`.  The Rust sort is
`sort_unstable_by`, whose order on equal keys is unspecified; the model
fixes a stable sort, which agrees with it whenever keys are distinct. -/
def sortMoves (ms : List MoveEntry) (ttMove : Option Nat) (ply : Nat)
    (pv : List Nat) : List MoveEntry :=
  let pvMove := pv[ply - 1]?
  let scored := ms.map (fun e => (entryScore e ttMove pvMove, e))
  (scored.insertionSort scoreGe).map (fun x => x.2)

/-- Result of the interior move loop (`src/search.rs` lines 347-376):
either the beta-cutoff `return beta` fired, or the loop ran to the end
carrying the accumulators `legal_moves`, `alpha`, `max`, `best_move`
and the pv built so far. -/
inductive LoopRes : Type where
  | cutoff (value : Int) (pvOut : List Nat) (s : SState) : LoopRes
  | finished (legal : Bool) (alpha maxv : Int) (best : Option Nat)
      (pvOut : List Nat) (s : SState) : LoopRes
deriving Repr

/-- The four mutually recursive procedures of the search core
(`Search::search`, its move loop, `Search::search_captures`, its move
loop), gathered in one record so a single fuelled fixpoint
(`searchFns`) ties the recursive knot: level `fuel + 1` makes every
recursive call through level `fuel`. -/
structure SearchFns : Type where
  search : Pos → Int → Int → Nat → Nat → SState → Int × List Nat × SState
  searchLoop : List MoveEntry → Nat → Int → Int → Nat → Nat → Bool →
    Int → Option Nat → List Nat → SState → LoopRes
  searchCaptures : Pos → Int → Int → Nat → SState → Int × SState
  capturesLoop : List MoveEntry → Int → Int → Nat → SState → Int × SState

/-- Fuel-exhaustion defaults (never reached in a run with ample
fuel). -/
def fuelOut : SearchFns where
  search := fun _ _ _ _ _ s => (0, [], s)
  searchLoop := fun _ _ alpha _ _ _ legal maxv best pvOut s =>
    LoopRes.finished legal alpha maxv best pvOut s
  searchCaptures := fun _ _ _ _ s => (0, s)
  capturesLoop := fun _ alpha _ _ s => (alpha, s)

/-- One level of the search recursion; `f` is the next-lower fuel
level.

`search` is `Search::search` (`src/search.rs` lines 295-405), the
interior negamax node: cancellation poll, check extension, quiescence
at depth 0, node count, repetition test-and-insert (an already-present
hash returns 0), transposition probe with possible cutoff — which
returns without removing the hash — move loop, removal of the hash,
mate/stalemate scores, and the after-loop Upper/Exact store.  It
returns `(score, pv, state)` where `pv` is the content of the
`&mut Vec` out-parameter at return (every caller passes a fresh empty
vector).

`searchLoop` is the `for mv in moves` loop (lines 347-376).  On a beta
cutoff the transposition-table store uses `board.hash()`, where
`board` is the binding shadowed by `make_move_new`, i.e. the hash of
the child position `child.hash`, while the repetition removal uses the
node's own `zobrist_hash`.

`searchCaptures` is `Search::search_captures` (lines 407-436), the
quiescence search; note the stand-pat returns `eval` (not `beta`) when
`eval ≥ beta`, before the node counter is incremented.

`capturesLoop` is its move loop (lines 422-435): it returns `score` on
`score ≥ beta`, else raises `alpha` and continues, and returns `alpha`
after the last move. -/
def searchStep (f : SearchFns) : SearchFns where
  search := fun p alpha beta depth ply s =>
    let (c, s) := shouldCancelSearch s
    if c then (0, [], s)
    else
      let depth := if p.inCheck then depth + 1 else depth
      if depth = 0 then
        let (sc, s) := f.searchCaptures p alpha beta ply s
        (sc, [], s)
      else
        let s := { s with nodes := s.nodes + 1 }
        let zobristHash := p.hash
        if s.repTable.contains zobristHash then (0, [], s)
        else
          let s := { s with repTable := zobristHash :: s.repTable }
          let originalAlpha := alpha
          let entry := ttGet s.tt zobristHash
          match ttCutoff entry depth ply alpha with
          | some v => (v, [], s)
          | none =>
            let ms := sortMoves p.moves (entry.map (fun e => e.mv)) ply s.pv
            match f.searchLoop ms zobristHash alpha beta depth ply
                false i32Min none [] s with
            | LoopRes.cutoff v pvOut s => (v, pvOut, s)
            | LoopRes.finished legal alpha maxv best pvOut s =>
              let s := { s with repTable := s.repTable.erase zobristHash }
              if legal = false then
                if p.inCheck then (-MATE_SCORE + ply, pvOut, s)
                else (0, pvOut, s)
              else
                match best with
                | some bm =>
                  if alpha ≤ originalAlpha then
                    let s := { s with
                      tt := ttStore s.tt zobristHash maxv Bound.Upper bm depth }
                    (maxv, pvOut, s)
                  else if beta ≤ alpha then
                    let s := { s with
                      tt := ttStore s.tt zobristHash maxv Bound.Exact bm depth }
                    (maxv, pvOut, s)
                  else (maxv, pvOut, s)
                | none => (maxv, pvOut, s)
  searchLoop := fun ms zobristHash alpha beta depth ply legal maxv best
      pvOut s =>
    match ms with
    | [] => LoopRes.finished legal alpha maxv best pvOut s
    | (mv, _, _, child?) :: rest =>
      match child? with
      | none =>
        f.searchLoop rest zobristHash alpha beta depth ply legal maxv
          best pvOut s
      | some child =>
        let (scoreRaw, nodePv, s) :=
          f.search child (-beta) (-alpha) (depth - 1) (ply + 1) s
        let score := -scoreRaw
        let (maxv, best, alpha, pvOut) :=
          if maxv < score then
            if alpha < score then (score, some mv, score, mv :: nodePv)
            else (score, some mv, alpha, pvOut)
          else (maxv, best, alpha, pvOut)
        if beta ≤ score then
          let s := { s with
            tt := ttStore s.tt child.hash score Bound.Lower mv depth }
          let s := { s with repTable := s.repTable.erase zobristHash }
          LoopRes.cutoff beta pvOut s
        else
          f.searchLoop rest zobristHash alpha beta depth ply true maxv
            best pvOut s
  searchCaptures := fun p alpha beta ply s =>
    let eval := p.eval
    if beta ≤ eval then (eval, s)
    else
      let alpha := if alpha < eval then eval else alpha
      let s := { s with seldepth := Nat.max s.seldepth ply }
      let s := { s with nodes := s.nodes + 1 }
      let ms := sortMoves p.captures none ply s.pv
      f.capturesLoop ms alpha beta ply s
  capturesLoop := fun ms alpha beta ply s =>
    match ms with
    | [] => (alpha, s)
    | (_, _, _, child?) :: rest =>
      match child? with
      | none => f.capturesLoop rest alpha beta ply s
      | some child =>
        let (scRaw, s) := f.searchCaptures child (-beta) (-alpha) (ply + 1) s
        let score := -scRaw
        if beta ≤ score then (score, s)
        else
          let alpha := if alpha < score then score else alpha
          f.capturesLoop rest alpha beta ply s

/-- The fuelled tower of search levels. -/
def searchFns : Nat → SearchFns
  | 0 => fuelOut
  | fuel + 1 => searchStep (searchFns fuel)

/-- `Search::search` at a given fuel (see `searchStep.search`). -/
def search (fuel : Nat) (p : Pos) (alpha beta : Int) (depth ply : Nat)
    (s : SState) : Int × List Nat × SState :=
  (searchFns fuel).search p alpha beta depth ply s

/-- The interior move loop at a given fuel (see
`searchStep.searchLoop`). -/
def searchLoop (fuel : Nat) (ms : List MoveEntry) (zobristHash : Nat)
    (alpha beta : Int) (depth ply : Nat) (legal : Bool) (maxv : Int)
    (best : Option Nat) (pvOut : List Nat) (s : SState) : LoopRes :=
  (searchFns fuel).searchLoop ms zobristHash alpha beta depth ply legal
    maxv best pvOut s

/-- `Search::search_captures` at a given fuel (see
`searchStep.searchCaptures`). -/
def searchCaptures (fuel : Nat) (p : Pos) (alpha beta : Int) (ply : Nat)
    (s : SState) : Int × SState :=
  (searchFns fuel).searchCaptures p alpha beta ply s

/-- The quiescence move loop at a given fuel (see
`searchStep.capturesLoop`). -/
def capturesLoop (fuel : Nat) (ms : List MoveEntry) (alpha beta : Int)
    (ply : Nat) (s : SState) : Int × SState :=
  (searchFns fuel).capturesLoop ms alpha beta ply s

/-- Result of the root move loop (`src/search.rs` lines 249-278):
`baseEarly` is the cancelled-with-no-best-move `return (0, NULL_MOVE)`
(which has already removed the root hash), `baseDone` covers both the
cancelled `break` and normal loop exit. -/
inductive BaseRes : Type where
  | baseEarly (r : Int × Nat) (s : SState) : BaseRes
  | baseDone (legal : Bool) (maxv : Int) (best : Nat) (s : SState) : BaseRes
deriving Repr

/-- The `for mv in moves` loop of `Search::search_base` (`src/search.rs`
lines 249-278).  After each child search the cancellation flag is
polled: with a best move found the loop breaks, otherwise the root hash
is removed (even when this invocation did not insert it) and
`(0, NULL_MOVE)` is returned.  The max/alpha update is skipped on the
cancelled poll. -/
def baseLoop (fuel : Nat) (ms : List MoveEntry) (zobristHash : Nat)
    (alpha beta : Int) (legal : Bool) (maxv : Int) (best : Nat)
    (s : SState) : BaseRes :=
  match fuel with
  | 0 => BaseRes.baseDone legal maxv best s
  | fuel + 1 =>
    match ms with
    | [] => BaseRes.baseDone legal maxv best s
    | (mv, _, _, child?) :: rest =>
      match child? with
      | none => baseLoop fuel rest zobristHash alpha beta legal maxv best s
      | some child =>
        let (scoreRaw, basePv, s) :=
          search fuel child (-beta) (-alpha) (s.searchDepth - 1) 1 s
        let score := -scoreRaw
        let (c, s) := shouldCancelSearch s
        if c then
          if best ≠ NULL_MOVE then BaseRes.baseDone true maxv best s
          else
            let s := { s with repTable := s.repTable.erase zobristHash }
            BaseRes.baseEarly (0, NULL_MOVE) s
        else
          let (maxv, best, alpha, s) :=
            if maxv < score then
              if alpha < score then
                (score, mv, score, { s with pvIteration := mv :: basePv })
              else (score, mv, alpha, s)
            else (maxv, best, alpha, s)
          baseLoop fuel rest zobristHash alpha beta true maxv best s

/-- `Search::search_base` (`src/search.rs` lines 230-293), the root
search: inserts the root hash if absent (tracking `inserted`), probes
the transposition table for a first-move hint, sorts, runs the root
loop, removes the hash only if inserted, and maps no-legal-moves to
`(-MATE_SCORE, NULL_MOVE)` in check and `(0, NULL_MOVE)` otherwise. -/
def searchBase (fuel : Nat) (root : Pos) (alpha beta : Int) (s : SState) :
    (Int × Nat) × SState :=
  let zobristHash := root.hash
  let (inserted, s) :=
    if s.repTable.contains zobristHash then (false, s)
    else (true, { s with repTable := zobristHash :: s.repTable })
  let firstMove := (ttGet s.tt root.hash).map (fun e => e.mv)
  let ms := sortMoves root.moves firstMove 1 s.pv
  match baseLoop fuel ms zobristHash alpha beta false i32Min NULL_MOVE s with
  | BaseRes.baseEarly r s => (r, s)
  | BaseRes.baseDone legal maxv best s =>
    let s :=
      if inserted then { s with repTable := s.repTable.erase zobristHash }
      else s
    if legal = false then
      if root.inCheck then ((-MATE_SCORE, NULL_MOVE), s)
      else ((0, NULL_MOVE), s)
    else ((maxv, best), s)

/-- `WINDOWS` from `Search::start_search` (`src/search.rs` lines
149-153). -/
def WINDOWS : List Int := [15, 350, INFINITY]

/-- The opening aspiration window of one iterative-deepening iteration
(`src/search.rs` lines 165-169): a narrow window around the previous
root evaluation only when `depth > 6`. -/
def initialWindow (depth : Nat) (evaluation : Int) : Int × Int :=
  if 6 < depth then
    (evaluation - WINDOWS.getD 0 0, evaluation + WINDOWS.getD 0 0)
  else (-INFINITY, INFINITY)

/-- The aspiration `loop` of `Search::start_search` (`src/search.rs`
lines 171-199): run the root search; on a fail-low with widening budget
left (`tries < WINDOWS.len() - 1`) widen `alpha` to
`evaluation - WINDOWS[tries]` and retry, symmetrically for fail-high;
otherwise commit the stable pv / evaluation / best move — only when the
iteration's best move differs from `NULL_MOVE` — and break, returning
the latest root evaluation and the (possibly updated) `depth_searched`.
`aFuel` is an embedding artifact: the guard lets the loop rerun at most
twice, so any `aFuel ≥ 3` is ample. -/
def aspirationLoop (aFuel fuel : Nat) (root : Pos) (alpha beta : Int)
    (tries : Nat) (depthSearched : Nat) (s : SState) :
    (Int × Nat) × SState :=
  match aFuel with
  | 0 => ((0, depthSearched), s)
  | aFuel + 1 =>
    let ((ev, bm), s) := searchBase fuel root alpha beta s
    let s := { s with evaluationIteration := ev, bestMoveIteration := bm }
    let evaluation := ev
    if evaluation ≤ alpha ∧ tries < WINDOWS.length - 1 then
      aspirationLoop aFuel fuel root
        (satSub evaluation (WINDOWS.getD tries 0)) beta (tries + 1)
        depthSearched s
    else if beta ≤ evaluation ∧ tries < WINDOWS.length - 1 then
      aspirationLoop aFuel fuel root alpha
        (satAdd evaluation (WINDOWS.getD tries 0)) (tries + 1)
        depthSearched s
    else
      if s.bestMoveIteration ≠ NULL_MOVE then
        let depthSearched := s.searchDepth
        let s := { s with
          pv := s.pvIteration
          evaluation := s.evaluationIteration
          bestMove := s.bestMoveIteration }
        ((evaluation, depthSearched), s)
      else ((evaluation, depthSearched), s)

/-- The `for depth in 1..=search_depth` loop of `Search::start_search`
(`src/search.rs` lines 160-204): set `self.search_depth`, open the
window, run the aspiration loop, and stop after a cancelled
iteration. -/
def iterLoop (fuel : Nat) (root : Pos) (depths : List Nat)
    (evaluation : Int) (depthSearched : Nat) (s : SState) :
    (Int × Nat) × SState :=
  match depths with
  | [] => ((evaluation, depthSearched), s)
  | depth :: rest =>
    let s := { s with searchDepth := depth }
    let tries := 1
    let (alpha, beta) := initialWindow depth evaluation
    let ((evaluation, depthSearched), s) :=
      aspirationLoop 4 fuel root alpha beta tries depthSearched s
    if s.cancelled then ((evaluation, depthSearched), s)
    else iterLoop fuel root rest evaluation depthSearched s

/-- The result record of `start_search` (`SearchInfo`, `src/search.rs`
lines 69-80).  `time` is the elapsed ticks; the floating-point `nps`
display value is omitted. -/
structure SearchOut : Type where
  depth : Nat
  seldepth : Nat
  time : Nat
  nodes : Nat
  evaluation : Int
  bestMove : Nat
  pv : List Nat
deriving DecidableEq, Repr

/-- `Search::start_search` (`src/search.rs` lines 129-219): derive the
budget from the time-management mode, reset the cancellation flag and
best move, restart the timer, and run iterative deepening from depth 1
up to the user depth (or `MAX_PLY = 255` when time-managed). -/
def startSearch (fuel : Nat) (root : Pos) (time timeInc : Nat)
    (s : SState) : SearchOut × SState :=
  let searchDepth :=
    if s.timeManagement ≠ TimeManagement.None then 255 else s.searchDepth
  let s := { s with cancelled := false, bestMove := NULL_MOVE }
  let s := { s with
    time :=
      if s.timeManagement = TimeManagement.TimeLeft then
        Nat.max (time / 20 + timeInc / 2) 5
      else Nat.max time 5 }
  let s := { s with checks := 0 }
  let ((_, depthSearched), s) :=
    iterLoop fuel root (List.range' 1 searchDepth) 0 0 s
  (⟨depthSearched, s.seldepth, s.checks, s.nodes, s.evaluation,
    s.bestMove, s.pv⟩, s)

/-- Stand-in for the external `Board::default()` (the standard start
position); its internals are opaque to the engine state handling. -/
def defaultBoard : Pos := Pos.mk 0 false 0 [] []

/-- The persistent `Engine` state (`src/engine.rs` lines 13-18): the
current board, the game-history repetition hashes (a `Vec<u64>`), and
the transposition table that outlives searches. -/
structure EngineState : Type where
  board : Pos
  repetitionTable : List Nat
  tt : List TTEntry

/-- The `UciCommand::UciNewGame` arm of `Engine::handle_command`
(`src/engine.rs` line 73): `self.board = Board::default()`. -/
def handleUciNewGame (e : EngineState) : EngineState :=
  { e with board := defaultBoard }

/-- `PIECE_VALUES` from `src/eval.rs` line 12. -/
def PIECE_VALUES : List Int := [100, 310, 325, 500, 900, 0]

/-- `Eval::piece_value` (`src/eval.rs` lines 25-27). -/
def pieceValue (p : Piece) : Int := PIECE_VALUES.getD p.toIndex 0

/-- Population count of a 64-bit bitboard (`u64::count_ones`). -/
def popcount64 (n : Nat) : Nat :=
  (List.range 64).countP (fun i => n.testBit i)

/-- The file mask `FILES[i]` of `chessframe::magic` (file `a` is the
0x0101010101010101 column, shifted left per file). -/
def fileMask (i : Nat) : Nat := 0x0101010101010101 <<< i

/-- `chessframe::magic::get_adjacent_files(file i)`: the mask of the
neighbouring files. -/
def adjacentFiles (i : Nat) : Nat :=
  (if i = 0 then 0 else fileMask (i - 1)) |||
    (if i = 7 then 0 else fileMask (i + 1))

/-- The board queries `Eval::eval` makes, for one position:
iteration order of `occupancy(color)`, `get_piece(square)`,
`pieces_color(Pawn, color)` bitboards, `side_to_move` and `in_check`.
`pstRead sq piece color` stands for
`PieceSquareTable::read(sq, piece, color, game_phase) as i32` at this
board's game phase: the piece-square interpolation is floating-point in
the source and enters the evaluation only through this integer cast, so
it is abstracted as a per-board integer table. -/
structure EBoard : Type where
  whiteSquares : List Nat
  blackSquares : List Nat
  getPiece : Nat → Option Piece
  whitePawns : Nat
  blackPawns : Nat
  sideToMove : Color
  inCheck : Bool
  pstRead : Nat → Piece → Color → Int

/-- `Eval::eval` (`src/eval.rs` lines 29-83): material and
piece-square sums for white minus black, doubled/isolated pawn
penalties per side (white's scaled by `25`, black's by `-25`, both then
subtracted), a check adjustment of `-50` when white is to move and in
check and `+50` when black is to move and in check, and the final
multiplication by the side-to-move perspective.  `get_piece` on an
occupied square is `unwrap_unchecked` in the source; the model defaults
to a pawn, which well-formed boards never exercise. -/
def evalFn (b : EBoard) : Int :=
  let score : Int := 0
  let score := b.whiteSquares.foldl
    (fun acc sq =>
      let piece := (b.getPiece sq).getD Piece.pawn
      acc + (pieceValue piece + b.pstRead sq piece Color.white)) score
  let score := b.blackSquares.foldl
    (fun acc sq =>
      let piece := (b.getPiece sq).getD Piece.pawn
      acc - (pieceValue piece + b.pstRead sq piece Color.black)) score
  let score := [Color.white, Color.black].foldl
    (fun acc color =>
      let pawns := match color with
        | Color.white => b.whitePawns
        | Color.black => b.blackPawns
      let penalty := (List.range 8).foldl
        (fun pen i =>
          let pen := pen + ((popcount64 (pawns &&& fileMask i) - 1 : Nat) : Int)
          let pen := pen + (if pawns &&& adjacentFiles i = 0 then 1 else 0)
          pen) (0 : Int)
      let penalty :=
        if color = Color.white then penalty * 25 else penalty * (-25)
      acc - penalty) score
  let whiteToMove := b.sideToMove = Color.white
  let score :=
    if b.inCheck then
      if whiteToMove then score - 50 else score + 50
    else score
  let perspective : Int := if whiteToMove then 1 else -1
  score * perspective

/-! Concrete inputs used by the counterexample and witness runs. -/

/-- A position whose hash has a transposition entry deep enough for an
`Exact` cutoff. -/
def posC1 : Pos := Pos.mk 100 false 0 [] []

/-- Search state for `posC1`: empty repetition set, one `Exact` entry
keyed by the node's hash at depth 5. -/
def sC1 : SState :=
  mkSearch [] [⟨100, 7, Bound.Exact, 3, 5⟩] TimeManagement.None none

/-- A root with one legal move, used to exercise the cancelled root
path. -/
def rootC1b : Pos :=
  Pos.mk 50 false 0 [(7, none, Piece.pawn, some (Pos.mk 51 false 0 [] []))] []

/-- State whose repetition set already holds the root hash (game
history) and whose one-tick budget cancels on the first poll. -/
def sC1b : SState :=
  { mkSearch [50] [] TimeManagement.MoveTime none with
    time := 1, searchDepth := 1 }

/-- A child position with hash 200 whose quiescence value makes the
parent's move fail high. -/
def childC2 : Pos := Pos.mk 200 false (-50) [] []

/-- A node with hash 100 and a single legal move into `childC2`. -/
def posC2 : Pos := Pos.mk 100 false 0 [(7, none, Piece.pawn, some childC2)] []

/-- Fresh search state with empty tables and no time management. -/
def sC2 : SState := mkSearch [] [] TimeManagement.None none

/-- Grandchild giving move `10` its depth-2 value. -/
def gcA : Pos := Pos.mk 3 false 42 [] []

/-- Grandchild behind move `11`, never reached in the cancelled run. -/
def gcB : Pos := Pos.mk 5 false (-77) [] []

/-- First root move's child (a queen capture, sorted first at depth 1). -/
def childA : Pos := Pos.mk 2 false (-100) [(20, none, Piece.pawn, some gcA)] []

/-- Second root move's child (a rook capture, sorted second). -/
def childB : Pos := Pos.mk 4 false (-50) [(21, none, Piece.pawn, some gcB)] []

/-- Root with two legal moves for the cancellation run: move `10`
(pawn takes queen) and move `11` (pawn takes rook). -/
def rootC3 : Pos :=
  Pos.mk 1 false 0
    [(10, some Piece.queen, Piece.pawn, some childA),
     (11, some Piece.rook, Piece.pawn, some childB)] []

/-- Move-time-managed state; `startSearch … 8 0` gives an 8-tick budget
that expires inside the second iteration's second root move. -/
def sC3 : SState := mkSearch [] [] TimeManagement.MoveTime none

/-- Tail of the depth-8 chain: static evaluation `1000`, seen first by
the depth-7 iteration. -/
def n7 : Pos := Pos.mk 17 false 1000 [] []

/-- Chain node 6. -/
def n6 : Pos := Pos.mk 16 false 0 [(36, none, Piece.pawn, some n7)] []

/-- Chain node 5. -/
def n5 : Pos := Pos.mk 15 false 0 [(35, none, Piece.pawn, some n6)] []

/-- Chain node 4. -/
def n4 : Pos := Pos.mk 14 false 0 [(34, none, Piece.pawn, some n5)] []

/-- Chain node 3. -/
def n3 : Pos := Pos.mk 13 false 0 [(33, none, Piece.pawn, some n4)] []

/-- Chain node 2. -/
def n2 : Pos := Pos.mk 12 false 0 [(32, none, Piece.pawn, some n3)] []

/-- Chain node 1. -/
def n1 : Pos := Pos.mk 11 false 0 [(31, none, Piece.pawn, some n2)] []

/-- Root of a single line of play whose evaluation is `0` up to depth 6
and `-1000` at depth 7: the depth-7 iteration fails low twice. -/
def chain : Pos := Pos.mk 10 false 0 [(30, none, Piece.pawn, some n1)] []

/-- Fixed-depth-7 state (no time management) for the chain run. -/
def sChain : SState := mkSearch [] [] TimeManagement.None (some 7)

/-- Fresh state at `search_depth = 7` for the window-comparison root
searches on `chain`. -/
def sFresh7 : SState :=
  { mkSearch [] [] TimeManagement.None (some 7) with searchDepth := 7 }

/-- A root with a single legal move, for the aspiration-commit
witness. -/
def rootW : Pos :=
  Pos.mk 60 false 0 [(9, none, Piece.pawn, some (Pos.mk 61 false (-5) [] []))] []

/-- Depth-1 state for `rootW`. -/
def sW : SState :=
  { mkSearch [] [] TimeManagement.None (some 1) with searchDepth := 1 }

/-- An engine state with a nonempty game history and transposition
table. -/
def engineBefore : EngineState :=
  ⟨Pos.mk 99 false 0 [] [], [42], [⟨7, 1, Bound.Exact, 2, 3⟩]⟩

/-- An empty board with black to move and not in check. -/
def bBlackNoCheck : EBoard :=
  ⟨[], [], fun _ => none, 0, 0, Color.black, false, fun _ _ _ => 0⟩

/-- The same board with the side to move in check. -/
def bBlackCheck : EBoard := { bBlackNoCheck with inCheck := true }

/-- Transposition growth discipline: every entry of the new table was
already present, or carries an `Upper` or `Lower` bound. -/
def ttGrowthOk (told tnew : List TTEntry) : Prop :=
  ∀ e ∈ tnew, e ∈ told ∨ (e.bound = Bound.Upper ∨ e.bound = Bound.Lower)

/-! Theorems. -/

/-- C1: the claim states that on every return path of the interior and
root searches the repetition set at exit equals the set at entry.  The
code violates it twice: (a) the interior search's transposition-table
cutoff (`src/search.rs` lines 332-343) returns after the hash was
inserted (line 320) without removing it — here the set grows from `[]`
to `[100]`; (b) the root search's cancelled-without-best-move path
(line 260) removes the hash unconditionally even though it was already
present at entry and was not inserted by this invocation — here the set
shrinks from `[50]` to `[]`. -/
theorem c1_repetition_set_not_preserved :
    (sC1.repTable = [] ∧
      (search 8 posC1 (-10) 10 3 1 sC1).2.2.repTable = [100]) ∧
    (sC1b.repTable = [50] ∧
      (searchBase 8 rootC1b (-INFINITY) INFINITY sC1b).2.repTable = []) := by
  decide

/-- C2: the claim states that the beta-cutoff store is keyed by the
zobrist hash of the node being searched (hash `100` here).  In the
source (`src/search.rs` lines 367-371) the binding `board` is shadowed
by the child produced by `make_move_new`, so the entry is stored under
the child's hash `200`; the node's own hash is used by the probe and by
the repetition removal in the same function, so the store key is a
slip.  The run is a node at `alpha = 0`, `beta = 10`, depth 1 whose
single move scores `10 ≥ beta`: the function returns `beta` and the
table holds exactly one entry `(score 10, Lower, move 7, depth 1)`
keyed `200`. -/
theorem c2_beta_cutoff_stores_child_hash :
    posC2.hash = 100 ∧ childC2.hash = 200 ∧
    (search 8 posC2 0 10 1 1 sC2).1 = 10 ∧
    (search 8 posC2 0 10 1 1 sC2).2.2.tt =
      [⟨200, 10, Bound.Lower, 7, 1⟩] := by
  decide

/-- C6 counterexample: the claim states `ucinewgame` clears the
repetition history and the transposition table; the handler
(`src/engine.rs` line 73) only replaces the board, and both survive
unchanged. -/
theorem c6_ucinewgame_retains_history :
    (handleUciNewGame engineBefore).repetitionTable = [42] ∧
    (handleUciNewGame engineBefore).tt = [⟨7, 1, Bound.Exact, 2, 3⟩] ∧
    [42] ≠ ([] : List Nat) := by
  exact ⟨rfl, rfl, by decide⟩

/-- C6 amended: handling `ucinewgame` resets the board to the start
position and retains both the persistent repetition history and the
transposition table. -/
theorem c6_ucinewgame_resets_board_only (e : EngineState) :
    (handleUciNewGame e).board = defaultBoard ∧
    (handleUciNewGame e).repetitionTable = e.repetitionTable ∧
    (handleUciNewGame e).tt = e.tt :=
  ⟨rfl, rfl, rfl⟩

/-- C7 counterexample: the claim states the evaluator subtracts 50 from
the white-perspective score whenever the side to move is in check,
regardless of colour.  With black to move the source (`src/eval.rs`
lines 69-75) adds 50 instead: on an empty board with black to move the
white-perspective score (the final result divided by the `-1`
perspective) rises by 50 when the check flag is set. -/
theorem c7_black_in_check_adds_50 :
    -(evalFn bBlackCheck) = -(evalFn bBlackNoCheck) + 50 ∧
    ¬(-(evalFn bBlackCheck) = -(evalFn bBlackNoCheck) - 50) := by
  decide

/-- C7 amended: when the side to move is in check the evaluator
subtracts 50 from the white-perspective score if white is to move and
adds 50 if black is to move; equivalently, after the final perspective
multiplication the side to move is always penalised by exactly 50. -/
theorem c7_check_penalises_side_to_move (b : EBoard) :
    evalFn { b with inCheck := true } =
      evalFn { b with inCheck := false } - 50 := by
  unfold evalFn
  cases hstm : b.sideToMove <;> simp [hstm]
  all_goals ring

/-- C3 counterexample: the claim states an iteration cut short by
cancellation never updates the stable PV.  In this run the 8-tick
budget lets the depth-1 iteration complete (committing evaluation 100,
best move 10, pv `[10]`, depth 1) and expires inside the depth-2
iteration after its first root move: the poll during the second root
move's subtree cancels it, the root loop breaks with the partial best,
and `start_search` still commits the cancelled iteration's values —
the final output is depth 2, evaluation 42, pv `[10, 20]`, with the
cancellation flag set, and only 3 nodes were counted (the second root
move's depth-2 subtree was never searched). -/
theorem c3_cancelled_iteration_updates_stable_pv :
    (startSearch 32 rootC3 8 0 sC3).1 = ⟨2, 2, 9, 3, 42, 10, [10, 20]⟩ ∧
    (startSearch 32 rootC3 8 0 sC3).2.cancelled = true := by
  decide

/-- C3 amended: after a root search whose result triggers neither
aspiration re-search, `start_search` (`src/search.rs` lines 190-198)
commits the stable pv, evaluation, best move and `depth_searched`
exactly when the iteration's best move differs from `NULL_MOVE` —
whether or not the iteration was cut short by cancellation.  (A
cancellation that strikes before any root move completes yields
`NULL_MOVE` and leaves the stable values unchanged.) -/
theorem c3_stable_update_iff_best_move (aFuel fuel : Nat) (root : Pos)
    (alpha beta : Int) (tries depthSearched : Nat) (s s1 : SState)
    (ev : Int) (bm : Nat)
    (hsb : searchBase fuel root alpha beta s = ((ev, bm), s1))
    (hlow : ¬(ev ≤ alpha ∧ tries < WINDOWS.length - 1))
    (hhigh : ¬(beta ≤ ev ∧ tries < WINDOWS.length - 1)) :
    aspirationLoop (aFuel + 1) fuel root alpha beta tries depthSearched s =
      if bm ≠ NULL_MOVE then
        ((ev, s1.searchDepth),
         { s1 with
            evaluationIteration := ev
            bestMoveIteration := bm
            pv := s1.pvIteration
            evaluation := ev
            bestMove := bm })
      else
        ((ev, depthSearched),
         { s1 with
            evaluationIteration := ev
            bestMoveIteration := bm }) := by
  simp only [aspirationLoop, hsb, if_neg hlow, if_neg hhigh]

/-- C3 witness: the amended statement applied to a one-move root whose
depth-1 search returns `(5, 9)`; the best move is not `NULL_MOVE`, so
the stable values are committed. -/
theorem c3_stable_update_iff_best_move_witness :
    aspirationLoop 2 8 rootW (-INFINITY) INFINITY 1 0 sW =
      ((5, 1),
       ⟨[], [], 5, 9, [9], 5, 9, [9], 1, 1, 0, 2,
        TimeManagement.None, 1, false⟩) := by
  have h := c3_stable_update_iff_best_move 1 8 rootW (-INFINITY) INFINITY
    1 0 sW
    ⟨[], [], 1234567890, 0, [], 1234567890, 0, [9], 1, 1, 0, 2,
     TimeManagement.None, 1, false⟩
    5 9 (by decide) (by decide) (by decide)
  simpa using h

/-- C4: the claim states the aspiration schedule performs up to two
re-searches per depth, reaching the INFINITY window.  The guard
`tries < WINDOWS.len() - 1` with `tries` starting at 1
(`src/search.rs` lines 163, 177-188) allows only one re-search, in
contradiction with the code's own three-entry `WINDOWS` array, whose
`INFINITY` entry is unreachable.  On a single line of play worth 0 up
to depth 6 and -1000 at depth 7, the depth-7 iteration opens
`[-15, 15]` and fails low at -15, re-searches once with
`alpha = -15 - 350 = -365` and fails low again at exactly -365 — yet
this fail-low value is committed as the iteration's evaluation, while
the re-search with the spec's third window `alpha = -INFINITY` would
have returned the true value -1000. -/
theorem c4_missing_third_window_research :
    (startSearch 32 chain 0 0 sChain).1.evaluation = -365 ∧
    (startSearch 32 chain 0 0 sChain).1.depth = 7 ∧
    (searchBase 32 chain (-INFINITY) 15 sFresh7).1 = (-1000, 30) ∧
    ((-365 : Int) ≤ -15 - 350) := by
  decide

/-- C5 counterexample: the claim states the sorter used in the search
scores a PV-hint move 20000 (and a TT-hint move 10000, a capture
`1000 + MVV_LVA`, a killer 5000).  The search uses its own
`Search::score_move` (`src/search.rs` lines 458-474), which scores the
PV move 2000 — not 20000.  (`MoveSorter` in `src/move_sorter.rs`
carries the claimed constants but is never invoked by the search.) -/
theorem c5_pv_hint_scores_2000 :
    scoreMove none Piece.pawn 5 none (some 5) = 2000 ∧
    (2000 : Int) ≠ 20000 := by
  decide

/-- C5 amended: the sorter the search actually uses
(`Search::score_move` / `Search::sort_moves`) scores a move equal to
the PV hint 2000, else a move equal to the TT hint 1000, else a capture
`MVV_LVA[victim][attacker]` (with no additive bonus), and any other
move 0 — there is no killer-move case — and the moves are reordered by
descending score (a permutation of the input). -/
theorem c5_search_sorter_scores (captured : Option Piece) (mover : Piece)
    (mv : Nat) (ttMove pvMove : Option Nat) (ms : List MoveEntry)
    (ttM : Option Nat) (ply : Nat) (pv : List Nat) :
    (some mv = pvMove → scoreMove captured mover mv ttMove pvMove = 2000) ∧
    (some mv ≠ pvMove → some mv = ttMove →
      scoreMove captured mover mv ttMove pvMove = 1000) ∧
    (some mv ≠ pvMove → some mv ≠ ttMove → ∀ victim, captured = some victim →
      scoreMove captured mover mv ttMove pvMove = getMvvLva victim mover) ∧
    (some mv ≠ pvMove → some mv ≠ ttMove → captured = none →
      scoreMove captured mover mv ttMove pvMove = 0) ∧
    (sortMoves ms ttM ply pv).Perm ms ∧
    ((sortMoves ms ttM ply pv).map
        (fun e => entryScore e ttM (pv[ply - 1]?))).Pairwise
      (fun a b : Int => a ≥ b) := by
  refine ⟨?_, ?_, ?_, ?_, ?_, ?_⟩
  · intro h
    unfold scoreMove
    rw [if_pos h]
  · intro h1 h2
    unfold scoreMove
    rw [if_neg h1, if_pos h2]
  · intro h1 h2 victim hc
    unfold scoreMove
    rw [if_neg h1, if_neg h2, hc]
  · intro h1 h2 hc
    unfold scoreMove
    rw [if_neg h1, if_neg h2, hc]
  · unfold sortMoves
    have hp := (List.perm_insertionSort scoreGe
      (ms.map (fun e => (entryScore e ttM (pv[ply - 1]?), e)))).map
      (fun x : Int × MoveEntry => x.2)
    simpa [List.map_map, Function.comp_def] using hp
  · unfold sortMoves
    have hs := List.sorted_insertionSort scoreGe
      (ms.map (fun e => (entryScore e ttM (pv[ply - 1]?), e)))
    have hmem : ∀ x ∈ (ms.map
        (fun e => (entryScore e ttM (pv[ply - 1]?), e))).insertionSort
          scoreGe,
        entryScore x.2 ttM (pv[ply - 1]?) = x.1 := by
      intro x hx
      rw [List.mem_insertionSort] at hx
      obtain ⟨e, _, rfl⟩ := List.mem_map.mp hx
      rfl
    rw [List.pairwise_map, List.pairwise_map]
    exact hs.imp_of_mem
      (fun ha hb hr => by
        show entryScore _ ttM _ ≥ entryScore _ ttM _
        rw [hmem _ ha, hmem _ hb]
        exact hr)

/-- C5 witness: the hypothesis-bearing cases of the amended statement
at concrete inputs: a TT-hint move scores 1000, a queen capture by a
pawn scores `MVV_LVA[queen][pawn] = 55`, and a quiet move scores 0. -/
theorem c5_search_sorter_scores_witness :
    scoreMove none Piece.pawn 3 (some 3) (some 9) = 1000 ∧
    scoreMove (some Piece.queen) Piece.pawn 4 (some 3) (some 9) =
      getMvvLva Piece.queen Piece.pawn ∧
    scoreMove none Piece.pawn 4 (some 3) (some 9) = 0 ∧
    scoreMove none Piece.pawn 9 none (some 9) = 2000 :=
  ⟨(c5_search_sorter_scores none Piece.pawn 3 (some 3) (some 9) [] none 1
      []).2.1 (by decide) rfl,
   (c5_search_sorter_scores (some Piece.queen) Piece.pawn 4 (some 3)
      (some 9) [] none 1 []).2.2.1 (by decide) (by decide) Piece.queen rfl,
   (c5_search_sorter_scores none Piece.pawn 4 (some 3) (some 9) [] none 1
      []).2.2.2.1 (by decide) (by decide) rfl,
   (c5_search_sorter_scores none Piece.pawn 9 none (some 9) [] none 1
      []).1 rfl⟩

/-- C9: on a transposition probe with a stored entry at least as deep
as the remaining depth (`src/search.rs` lines 330-343), the interior
search returns the mate-corrected score when the bound is `Exact`,
returns it when the bound is `Upper` and the corrected score is at most
`alpha`, and never returns early on a `Lower` bound (that arm is
commented out in the source); and `correct_mate_score` maps `s` to
`sign(s) * (|s| - ply)` when `|s| > MATE_SCORE - 1000` and is the
identity otherwise. -/
theorem c9_tt_probe_behaviour (e : TTEntry) (depth ply : Nat)
    (alpha : Int) (hd : depth ≤ e.depth) :
    (e.bound = Bound.Exact →
      ttCutoff (some e) depth ply alpha =
        some (correctMateScore e.score ply)) ∧
    (e.bound = Bound.Upper → correctMateScore e.score ply ≤ alpha →
      ttCutoff (some e) depth ply alpha =
        some (correctMateScore e.score ply)) ∧
    (e.bound = Bound.Upper → alpha < correctMateScore e.score ply →
      ttCutoff (some e) depth ply alpha = none) ∧
    (e.bound = Bound.Lower → ttCutoff (some e) depth ply alpha = none) ∧
    (∀ sc : Int, ∀ p : Nat,
      correctMateScore sc p =
        if MATE_SCORE - 1000 < |sc| then sc.sign * (|sc| - p) else sc) := by
  refine ⟨?_, ?_, ?_, ?_, ?_⟩
  · intro hb
    simp only [ttCutoff]
    rw [if_pos hd, hb]
  · intro hb hle
    simp only [ttCutoff]
    rw [if_pos hd, hb]
    simp [hle]
  · intro hb hgt
    simp only [ttCutoff]
    rw [if_pos hd, hb]
    simp [not_le.mpr hgt]
  · intro hb
    simp only [ttCutoff]
    rw [if_pos hd, hb]
  · intro sc p
    unfold correctMateScore
    split
    · next hcond =>
      rcases lt_trichotomy sc 0 with hneg | hzero | hpos
      · rw [Int.sign_eq_neg_one_iff_neg.mpr hneg, abs_of_neg hneg]
        ring
      · subst hzero
        simp [MATE_SCORE] at hcond
      · rw [Int.sign_eq_one_iff_pos.mpr hpos, abs_of_pos hpos]
        ring
    · rfl

/-- C9 witness: the probe at a concrete entry — an `Exact` entry of
depth 4 probed at remaining depth 3 returns its (identity-corrected)
score. -/
theorem c9_tt_probe_behaviour_witness :
    (3 : Nat) ≤ 4 ∧
    ttCutoff (some ⟨1, 5, Bound.Exact, 2, 4⟩) 3 2 0 =
      some (correctMateScore 5 2) :=
  ⟨by decide,
   (c9_tt_probe_behaviour ⟨1, 5, Bound.Exact, 2, 4⟩ 3 2 0 (by decide)).1 rfl⟩

/-- C8 counterexample: the claim states that depth 6 already uses the
narrow aspiration window; the source guard (`src/search.rs` line 165)
is `depth > 6`, so depth 6 still opens the full window. -/
theorem c8_depth_6_uses_full_window :
    initialWindow 6 100 = (-INFINITY, INFINITY) ∧
    initialWindow 6 100 ≠ ((100 : Int) - 15, (100 : Int) + 15) := by
  decide

/-- C8 amended: for every iterative-deepening depth `d`, the narrow
window `[eval - 15, eval + 15]` around the most recent root evaluation
is used exactly when `d > 6` (i.e. `d ≥ 7`), and the full window
`[-INFINITY, INFINITY]` is used when `d ≤ 6`. -/
theorem c8_narrow_window_iff_depth_gt_6 (d : Nat) (e : Int) :
    (6 < d → initialWindow d e = (e - 15, e + 15)) ∧
    (d ≤ 6 → initialWindow d e = (-INFINITY, INFINITY)) := by
  constructor
  · intro h
    unfold initialWindow
    rw [if_pos h]
    norm_num [WINDOWS]
  · intro h
    unfold initialWindow
    rw [if_neg (by omega)]

/-- C8 witness: the amended statement applied at depth 7 and depth 6. -/
theorem c8_narrow_window_iff_depth_gt_6_witness :
    initialWindow 7 0 = ((0 : Int) - 15, (0 : Int) + 15) ∧
    initialWindow 6 0 = (-INFINITY, INFINITY) :=
  ⟨(c8_narrow_window_iff_depth_gt_6 7 0).1 (by decide),
   (c8_narrow_window_iff_depth_gt_6 6 0).2 (by decide)⟩

/-- The growth discipline is reflexive. -/
theorem ttGrowthOk_refl (t : List TTEntry) : ttGrowthOk t t :=
  fun _ he => Or.inl he

/-- The growth discipline composes. -/
theorem ttGrowthOk_trans {t1 t2 t3 : List TTEntry} (h12 : ttGrowthOk t1 t2)
    (h23 : ttGrowthOk t2 t3) : ttGrowthOk t1 t3 := by
  intro e he
  rcases h23 e he with h | h
  · exact h12 e h
  · exact Or.inr h

/-- Storing an `Upper` or `Lower` entry preserves the discipline. -/
theorem ttGrowthOk_store {t1 t2 : List TTEntry} (h : ttGrowthOk t1 t2)
    (key : Nat) (score : Int) (bound : Bound) (mv : Nat) (depth : Nat)
    (hb : bound = Bound.Upper ∨ bound = Bound.Lower) :
    ttGrowthOk t1 (ttStore t2 key score bound mv depth) := by
  intro e he
  rcases List.mem_cons.mp he with he | he
  · exact Or.inr (by simpa [he] using hb)
  · exact h e he

/-- The cancellation poll never touches the transposition table. -/
theorem shouldCancelSearch_tt (s : SState) :
    ((shouldCancelSearch s).2).tt = s.tt := by
  unfold shouldCancelSearch
  dsimp only
  split <;> rfl

/-- Joint invariant of the four search procedures, by induction on
fuel: for windows with `alpha < beta`, every transposition entry added
by the interior search or its move loop carries an `Upper` or `Lower`
bound; the move loop additionally leaves `alpha < beta` on normal exit
(any child score reaching `beta` returns through the cutoff instead);
and quiescence never writes the table. -/
theorem searchFns_tt_growth (fuel : Nat) :
    (∀ p alpha beta depth ply s, alpha < beta →
      ttGrowthOk s.tt ((searchFns fuel).search p alpha beta depth ply s).2.2.tt) ∧
    (∀ ms zh alpha beta depth ply legal maxv best pvOut s, alpha < beta →
      (∀ v pvO s1,
        (searchFns fuel).searchLoop ms zh alpha beta depth ply legal maxv
          best pvOut s = LoopRes.cutoff v pvO s1 →
        ttGrowthOk s.tt s1.tt) ∧
      (∀ lg a1 m1 b1 pvO s1,
        (searchFns fuel).searchLoop ms zh alpha beta depth ply legal maxv
          best pvOut s = LoopRes.finished lg a1 m1 b1 pvO s1 →
        ttGrowthOk s.tt s1.tt ∧ a1 < beta)) ∧
    (∀ p alpha beta ply s,
      ((searchFns fuel).searchCaptures p alpha beta ply s).2.tt = s.tt) ∧
    (∀ ms alpha beta ply s,
      ((searchFns fuel).capturesLoop ms alpha beta ply s).2.tt = s.tt) := by
  induction fuel with
  | zero =>
    refine ⟨?_, ?_, ?_, ?_⟩
    · intro p alpha beta depth ply s _
      exact ttGrowthOk_refl _
    · intro ms zh alpha beta depth ply legal maxv best pvOut s hab
      constructor
      · intro v pvO s1 h
        simp [searchFns, fuelOut] at h
      · intro lg a1 m1 b1 pvO s1 h
        simp only [searchFns, fuelOut] at h
        cases h
        exact ⟨ttGrowthOk_refl _, hab⟩
    · intro p alpha beta ply s
      rfl
    · intro ms alpha beta ply s
      rfl
  | succ fuel ih =>
    obtain ⟨ihS, ihL, ihC, ihCL⟩ := ih
    have hC : ∀ p alpha beta ply s,
        ((searchFns (fuel + 1)).searchCaptures p alpha beta ply s).2.tt =
          s.tt := by
      intro p alpha beta ply s
      show ((searchStep (searchFns fuel)).searchCaptures p alpha beta ply
        s).2.tt = s.tt
      simp only [searchStep]
      split
      · rfl
      · rw [ihCL]
    have hCL : ∀ ms alpha beta ply s,
        ((searchFns (fuel + 1)).capturesLoop ms alpha beta ply s).2.tt =
          s.tt := by
      intro ms alpha beta ply s
      show ((searchStep (searchFns fuel)).capturesLoop ms alpha beta ply
        s).2.tt = s.tt
      simp only [searchStep]
      match ms with
      | [] => rfl
      | (mv, cap, mover, none) :: rest =>
        exact ihCL rest alpha beta ply s
      | (mv, cap, mover, some child) :: rest =>
        rcases hq : (searchFns fuel).searchCaptures child (-beta) (-alpha)
          (ply + 1) s with ⟨scRaw, s1⟩
        have hs1 : s1.tt = s.tt := by
          have h2 := congrArg (fun x : Int × SState => x.2.tt) hq
          simpa [ihC] using h2.symm
        simp only [hq]
        split
        · exact hs1
        · rw [ihCL]
          exact hs1
    have hL : ∀ ms zh alpha beta depth ply legal maxv best pvOut s,
        alpha < beta →
        (∀ v pvO s1,
          (searchFns (fuel + 1)).searchLoop ms zh alpha beta depth ply
            legal maxv best pvOut s = LoopRes.cutoff v pvO s1 →
          ttGrowthOk s.tt s1.tt) ∧
        (∀ lg a1 m1 b1 pvO s1,
          (searchFns (fuel + 1)).searchLoop ms zh alpha beta depth ply
            legal maxv best pvOut s = LoopRes.finished lg a1 m1 b1 pvO s1 →
          ttGrowthOk s.tt s1.tt ∧ a1 < beta) := by
      intro ms zh alpha beta depth ply legal maxv best pvOut s hab
      match ms with
      | [] =>
        refine ⟨?_, ?_⟩
        · intro v pvO s1 h
          simp only [searchFns, searchStep] at h
          cases h
        · intro lg a1 m1 b1 pvO s1 h
          simp only [searchFns, searchStep] at h
          injection h with h1 h2 h3 h4 h5 h6
          subst h1 h2 h3 h4 h5 h6
          exact ⟨ttGrowthOk_refl _, hab⟩
      | (mv, cap, mover, none) :: rest =>
        refine ⟨?_, ?_⟩
        · intro v pvO s1 h
          simp only [searchFns, searchStep] at h
          exact (ihL rest zh alpha beta depth ply legal maxv best pvOut s
            hab).1 v pvO s1 h
        · intro lg a1 m1 b1 pvO s1 h
          simp only [searchFns, searchStep] at h
          exact (ihL rest zh alpha beta depth ply legal maxv best pvOut s
            hab).2 lg a1 m1 b1 pvO s1 h
      | (mv, cap, mover, some child) :: rest =>
        rcases hq : (searchFns fuel).search child (-beta) (-alpha)
          (depth - 1) (ply + 1) s with ⟨scoreRaw, nodePv, s1⟩
        have hg1 : ttGrowthOk s.tt s1.tt := by
          have h3 := ihS child (-beta) (-alpha) (depth - 1) (ply + 1) s
            (by omega)
          rw [hq] at h3
          exact h3
        refine ⟨?_, ?_⟩
        · intro v pvO s1' h
          simp only [searchFns, searchStep, hq] at h
          by_cases hm : maxv < -scoreRaw
          · by_cases ha : alpha < -scoreRaw
            · simp only [if_pos hm, if_pos ha] at h
              by_cases hb : beta ≤ -scoreRaw
              · simp only [if_pos hb] at h
                injection h with h1 h2 h3
                subst h3
                exact ttGrowthOk_store hg1 _ _ _ _ _ (Or.inr rfl)
              · simp only [if_neg hb] at h
                exact ttGrowthOk_trans hg1
                  ((ihL rest zh (-scoreRaw) beta depth ply true (-scoreRaw)
                    (some mv) (mv :: nodePv) s1 (by omega)).1 v pvO s1' h)
            · simp only [if_pos hm, if_neg ha] at h
              by_cases hb : beta ≤ -scoreRaw
              · simp only [if_pos hb] at h
                injection h with h1 h2 h3
                subst h3
                exact ttGrowthOk_store hg1 _ _ _ _ _ (Or.inr rfl)
              · simp only [if_neg hb] at h
                exact ttGrowthOk_trans hg1
                  ((ihL rest zh alpha beta depth ply true (-scoreRaw)
                    (some mv) pvOut s1 hab).1 v pvO s1' h)
          · simp only [if_neg hm] at h
            by_cases hb : beta ≤ -scoreRaw
            · simp only [if_pos hb] at h
              injection h with h1 h2 h3
              subst h3
              exact ttGrowthOk_store hg1 _ _ _ _ _ (Or.inr rfl)
            · simp only [if_neg hb] at h
              exact ttGrowthOk_trans hg1
                ((ihL rest zh alpha beta depth ply true maxv best pvOut s1
                  hab).1 v pvO s1' h)
        · intro lg a1 m1 b1 pvO s1' h
          simp only [searchFns, searchStep, hq] at h
          by_cases hm : maxv < -scoreRaw
          · by_cases ha : alpha < -scoreRaw
            · simp only [if_pos hm, if_pos ha] at h
              by_cases hb : beta ≤ -scoreRaw
              · simp only [if_pos hb] at h
                cases h
              · simp only [if_neg hb] at h
                obtain ⟨hg2, ha1⟩ := (ihL rest zh (-scoreRaw) beta depth ply
                  true (-scoreRaw) (some mv) (mv :: nodePv) s1 (by omega)).2
                  lg a1 m1 b1 pvO s1' h
                exact ⟨ttGrowthOk_trans hg1 hg2, ha1⟩
            · simp only [if_pos hm, if_neg ha] at h
              by_cases hb : beta ≤ -scoreRaw
              · simp only [if_pos hb] at h
                cases h
              · simp only [if_neg hb] at h
                obtain ⟨hg2, ha1⟩ := (ihL rest zh alpha beta depth ply true
                  (-scoreRaw) (some mv) pvOut s1 hab).2 lg a1 m1 b1 pvO s1' h
                exact ⟨ttGrowthOk_trans hg1 hg2, ha1⟩
          · simp only [if_neg hm] at h
            by_cases hb : beta ≤ -scoreRaw
            · simp only [if_pos hb] at h
              cases h
            · simp only [if_neg hb] at h
              obtain ⟨hg2, ha1⟩ := (ihL rest zh alpha beta depth ply true
                maxv best pvOut s1 hab).2 lg a1 m1 b1 pvO s1' h
              exact ⟨ttGrowthOk_trans hg1 hg2, ha1⟩
    have hS : ∀ p alpha beta depth ply s, alpha < beta →
        ttGrowthOk s.tt
          ((searchFns (fuel + 1)).search p alpha beta depth ply s).2.2.tt := by
      intro p alpha beta depth ply s hab
      show ttGrowthOk s.tt
        ((searchStep (searchFns fuel)).search p alpha beta depth ply s).2.2.tt
      simp only [searchStep]
      rcases hq : shouldCancelSearch s with ⟨c, s1⟩
      have hs1 : ttGrowthOk s.tt s1.tt := by
        have h2 : (shouldCancelSearch s).2.tt = s1.tt := by rw [hq]
        rw [shouldCancelSearch_tt] at h2
        rw [← h2]
        exact ttGrowthOk_refl _
      simp only [hq]
      split
      · exact hs1
      · split
        · split
          · show ttGrowthOk s.tt
              ((searchFns fuel).searchCaptures p alpha beta ply s1).2.tt
            rw [ihC]
            exact hs1
          · split
            · exact hs1
            · split
              · exact hs1
              · split
                · next v pvO s4 heq =>
                  have hloop := (ihL _ _ alpha beta _ ply false i32Min none
                    [] _ hab).1 _ _ _ heq
                  exact ttGrowthOk_trans hs1 hloop
                · next lg a1 m1 b1 pvO s4 heq =>
                  obtain ⟨hg2, ha1⟩ := (ihL _ _ alpha beta _ ply false i32Min
                    none [] _ hab).2 _ _ _ _ _ _ heq
                  have hg : ttGrowthOk s.tt s4.tt := ttGrowthOk_trans hs1 hg2
                  split
                  · exact hg
                  · split
                    · next bm =>
                      split
                      · exact ttGrowthOk_store hg _ _ _ _ _ (Or.inl rfl)
                      · split
                        · next hcond =>
                          exact absurd hcond (by omega)
                        · exact hg
                    · exact hg
        · split
          · show ttGrowthOk s.tt
              ((searchFns fuel).searchCaptures p alpha beta ply s1).2.tt
            rw [ihC]
            exact hs1
          · split
            · exact hs1
            · split
              · exact hs1
              · split
                · next v pvO s4 heq =>
                  have hloop := (ihL _ _ alpha beta _ ply false i32Min none
                    [] _ hab).1 _ _ _ heq
                  exact ttGrowthOk_trans hs1 hloop
                · next lg a1 m1 b1 pvO s4 heq =>
                  obtain ⟨hg2, ha1⟩ := (ihL _ _ alpha beta _ ply false i32Min
                    none [] _ hab).2 _ _ _ _ _ _ heq
                  have hg : ttGrowthOk s.tt s4.tt := ttGrowthOk_trans hs1 hg2
                  split
                  · exact hg
                  · split
                    · next bm =>
                      split
                      · exact ttGrowthOk_store hg _ _ _ _ _ (Or.inl rfl)
                      · split
                        · next hcond =>
                          exact absurd hcond (by omega)
                        · exact hg
                    · exact hg
    exact ⟨hS, hL, hC, hCL⟩

/-- C10: for every caller with `alpha < beta`, the interior search never
stores a transposition entry with bound `Exact`: the post-loop guard
`alpha ≥ beta` (`src/search.rs` line 395) is unreachable because a
child score of at least `beta` returns through the in-loop beta cutoff,
so `alpha < beta` still holds after the loop and every entry added by a
call to `search` bears bound `Upper` (after-loop store) or `Lower`
(cutoff store). -/
theorem c10_search_never_stores_exact (fuel : Nat) (p : Pos)
    (alpha beta : Int) (depth ply : Nat) (s : SState)
    (hab : alpha < beta) :
    ∀ e ∈ (search fuel p alpha beta depth ply s).2.2.tt,
      e ∈ s.tt ∨ (e.bound = Bound.Upper ∨ e.bound = Bound.Lower) :=
  (searchFns_tt_growth fuel).1 p alpha beta depth ply s hab

/-- C10 witness: the theorem applied to the concrete beta-cutoff run on
`posC2`. -/
theorem c10_search_never_stores_exact_witness :
    (0 : Int) < 10 ∧
    ∀ e ∈ (search 8 posC2 0 10 1 1 sC2).2.2.tt,
      e ∈ sC2.tt ∨ (e.bound = Bound.Upper ∨ e.bound = Bound.Lower) :=
  ⟨by decide, c10_search_never_stores_exact 8 posC2 0 10 1 1 sC2 (by decide)⟩

end Ferris
